import Mathlib

/-!
Verification of the scheduling core of the MISPay backend (NestJS job
scheduler).  The definitions below are a shallow embedding of
`SchedulerService` (scheduler.service.ts) and the parts of the job data
model it manipulates.  Timestamps are modelled as milliseconds since the
Unix epoch (`Nat`); the service's calendar accessors (`getMinutes`,
`getHours`, `getDate`, `getMonth`, `getDay`) are modelled with the
proleptic-Gregorian civil-date algorithm, i.e. JS `Date` semantics in UTC
for non-negative timestamps.  Fallible code (`throw`) is modelled with
`Except`; the in-memory `Map`s (`scheduledJobs`, `executingJobs`) are
modelled as association lists with Map-style set/delete, and the TypeORM
repository as a list of rows with upsert/find.
-/

deriving instance DecidableEq for Except

/-- JobStatus enum from job.entity.ts. -/
inductive JobStatus where
  | active
  | paused
  | completed
  | failed
deriving DecidableEq, Repr

/-- Projection of the Job entity (job.entity.ts) onto the columns the
scheduler reads or writes.  `type`, `description`, `metadata` and the
audit timestamps are never touched by the scheduling core and are
omitted. -/
structure Job where
  id : String
  name : String
  schedule : String
  status : JobStatus
  nextRunAt : Option Nat
  lastRunAt : Option Nat
  runCount : Nat
  failureCount : Nat
  lastError : Option String
deriving DecidableEq, Repr

/-! ### Calendar model of the JS Date accessors (UTC, proleptic Gregorian) -/

/-- Days since 1970-01-01 of a millisecond timestamp. -/
def daysOf (t : Nat) : Nat := t / 86400000

/-- JS `getMinutes()` of a millisecond timestamp. -/
def minuteOf (t : Nat) : Nat := t / 60000 % 60

/-- JS `getHours()` of a millisecond timestamp. -/
def hourOf (t : Nat) : Nat := t / 3600000 % 24

/-- JS `getDay()` (0 = Sunday .. 6 = Saturday); 1970-01-01 was a Thursday. -/
def weekdayOf (t : Nat) : Nat := (daysOf t + 4) % 7

/-- Civil date (year, month 1..12, day of month) from days since
1970-01-01, by the standard era-based Gregorian algorithm.  Models the JS
`Date` UTC calendar for non-negative timestamps. -/
def civilOf (z : Nat) : Nat × Nat × Nat :=
  let z' := z + 719468
  let era := z' / 146097
  let doe := z' % 146097
  let yoe := (doe - doe / 1460 + doe / 36524 - doe / 146096) / 365
  let doy := doe - (365 * yoe + yoe / 4 - yoe / 100)
  let mp := (5 * doy + 2) / 153
  let d := doy - (153 * mp + 2) / 5 + 1
  let m := if mp < 10 then mp + 3 else mp - 9
  let y := yoe + era * 400 + (if m ≤ 2 then 1 else 0)
  (y, m, d)

/-- JS `getDate()` (day of month 1..31) of a millisecond timestamp. -/
def dayOfMonthOf (t : Nat) : Nat := (civilOf (daysOf t)).2.2

/-- JS `getMonth() + 1` (month 1..12) of a millisecond timestamp, as used
at the call site in `calculateNextRunFromCron`. -/
def monthOf (t : Nat) : Nat := (civilOf (daysOf t)).2.1

/-- Truncation to the whole minute: `setSeconds(0, 0)`. -/
def truncMinute (t : Nat) : Nat := t / 60000 * 60000

/-! ### String helpers modelling the JS string/regex operations -/

/-- ASCII digit test, the `\d` character class. -/
def isDigitChar (c : Char) : Bool := '0' ≤ c && c ≤ '9'

/-- Decimal value of a digit string. -/
def digitsToNat (l : List Char) : Nat :=
  l.foldl (fun acc c => acc * 10 + (c.toNat - '0'.toNat)) 0

/-- Non-empty all-digit test: the anchored regex `^\d+$`. -/
def allDigits (l : List Char) : Bool :=
  !l.isEmpty && l.all isDigitChar

/-- JS whitespace test for `trim` and `\s`. -/
def isWsChar (c : Char) : Bool :=
  c = ' ' || c = '\t' || c = '\n' || c = '\r'

/-- JS `String.prototype.trim` on a character list. -/
def charTrim (l : List Char) : List Char :=
  ((l.dropWhile isWsChar).reverse.dropWhile isWsChar).reverse

/-- Tokenisation `expr.trim().split(/\s+/)` for a string containing at
least one non-whitespace character: the maximal whitespace-free runs, in
order.  (On an all-whitespace string JS yields `[""]` and this yields
`[]`; both fail the length-5 check in `calculateNextRunFromCron`, so the
difference is unobservable there.) -/
def wsTokensAux : List Char → List Char → List String
  | [], acc => if acc.isEmpty then [] else [⟨acc.reverse⟩]
  | c :: rest, acc =>
      if isWsChar c then
        if acc.isEmpty then wsTokensAux rest []
        else ⟨acc.reverse⟩ :: wsTokensAux rest []
      else wsTokensAux rest (c :: acc)

/-- Whitespace tokens of a string. -/
def wsTokens (s : String) : List String := wsTokensAux s.data []

/-- JS `parseInt(str, 10)` after trimming: optional sign, then the maximal
leading digit run; `none` models `NaN` (no digits). -/
def jsParseInt (l : List Char) : Option Int :=
  let core : List Char → Option Nat := fun cs =>
    match cs.takeWhile isDigitChar with
    | [] => none
    | ds => some (digitsToNat ds)
  match l with
  | '+' :: rest => (core rest).map Int.ofNat
  | '-' :: rest => (core rest).map (fun n => -(n : Int))
  | _ => (core l).map Int.ofNat

/-- The anchored step regex `^\*\/(\d+)$` of `matchesCronField`. -/
def stepOf : List Char → Option Nat
  | '*' :: '/' :: rest => if allDigits rest then some (digitsToNat rest) else none
  | _ => none

/-- The anchored range regex `^(\d+)-(\d+)$` of `matchesCronField`. -/
def rangeOf (l : List Char) : Option (Nat × Nat) :=
  let ds := l.takeWhile isDigitChar
  match ds, l.drop ds.length with
  | _ :: _, '-' :: rest =>
      if allDigits rest then some (digitsToNat ds, digitsToNat rest) else none
  | _, _ => none

/-- JS `String.prototype.split(',')`: fields between commas, empties kept. -/
def splitCommaAux : List Char → List Char → List (List Char)
  | [], acc => [acc.reverse]
  | ',' :: rest, acc => acc.reverse :: splitCommaAux rest []
  | c :: rest, acc => splitCommaAux rest (c :: acc)

/-- Comma fields of a character list. -/
def splitComma (l : List Char) : List (List Char) := splitCommaAux l []

/-! ### Errors thrown by the calculator (the four `throw` sites) -/

/-- The four distinct error messages thrown by `calculateNextRun` and its
two helpers.  The spec's taxonomy maps the first three to
`InvalidSchedule` and the last to `NoFeasibleRun`. -/
inductive CalcError where
  | invalidIntervalFormat
  | intervalMustBePositive
  | invalidCronExpression
  | noFeasibleRun
deriving DecidableEq, Repr

/-- Which calculator errors the spec classifies as `InvalidSchedule`. -/
def CalcError.isInvalidSchedule : CalcError → Bool
  | .invalidIntervalFormat => true
  | .intervalMustBePositive => true
  | .invalidCronExpression => true
  | .noFeasibleRun => false

/-! ### matchesCronField -/

/-- SchedulerService.matchesCronField, branch for branch in source order:
`*`, step `*/n`, exact integer, range `a-b`, comma list, else false.
JS note: for `*/0` the source computes `value % 0`, which is `NaN` and
never strictly equals 0, hence `false`; for the comma list, `parseInt` of
an undecodable token is `NaN`, which `includes` never equates to the
numeric value. -/
def matchesCronField (field : String) (value : Nat) : Bool :=
  if field = "*" then true
  else
    match stepOf field.data with
    | some step => if step = 0 then false else value % step = 0
    | none =>
      if allDigits field.data then digitsToNat field.data = value
      else
        match rangeOf field.data with
        | some (a, b) => a ≤ value && value ≤ b
        | none =>
          if field.data.contains ',' then
            let values := (splitComma field.data).map (fun v => jsParseInt (charTrim v))
            values.contains (some (Int.ofNat value))
          else false

/-- One candidate test of the cron search loop: all five field matches of
the candidate instant, as computed in `calculateNextRunFromCron`. -/
def matchesAllFields (minute hour day month weekday : String) (t : Nat) : Bool :=
  matchesCronField minute (minuteOf t) &&
  matchesCronField hour (hourOf t) &&
  matchesCronField day (dayOfMonthOf t) &&
  matchesCronField month (monthOf t) &&
  matchesCronField weekday (weekdayOf t)

/-- The `while (attempts < maxAttempts)` search loop: test the candidate,
else advance one minute, with `fuel` remaining attempts; exhaustion is the
`Could not find next run time` throw. -/
def cronSearch (minute hour day month weekday : String) (t fuel : Nat) :
    Except CalcError Nat :=
  match fuel with
  | 0 => .error .noFeasibleRun
  | Nat.succ f =>
      if matchesAllFields minute hour day month weekday t then .ok t
      else cronSearch minute hour day month weekday (t + 60000) f

/-- SchedulerService.calculateNextRunFromCron: split into 5 fields (else
`Invalid cron expression`), truncate `from` to the minute, advance one
minute, then search at most 10080 candidates. -/
def calculateNextRunFromCron (cronExpression : String) (t0 : Nat) :
    Except CalcError Nat :=
  match wsTokens cronExpression with
  | [minute, hour, day, month, weekday] =>
      cronSearch minute hour day month weekday (truncMinute t0 + 60000) 10080
  | _ => .error .invalidCronExpression

/-! ### calculateNextRunFromInterval -/

/-- Position of the first literal `PT` in the string: the unanchored JS
regex `interval.match(/PT(?:(\d+)H)?(?:(\d+)M)?(?:(\d+)S)?/)` matches at
the first occurrence of `PT` (all three groups are optional, so the match
can never fail once `PT` is found); `none` models a null match. -/
def findPT : List Char → Option (List Char)
  | 'P' :: 'T' :: rest => some rest
  | _ :: rest => findPT rest
  | [] => none

/-- One optional regex group `(?:(\d+)U)?` for unit letter `u`: taken
exactly when a digit run immediately followed by `u` starts here
(backtracking inside `\d+` cannot help, so greedy parsing is exact). -/
def parseComp (u : Char) (l : List Char) : Option Nat × List Char :=
  let ds := l.takeWhile isDigitChar
  match ds, l.drop ds.length with
  | _ :: _, c :: rest => if c = u then (some (digitsToNat ds), rest) else (none, l)
  | _, _ => (none, l)

/-- The three captured groups (hours, minutes, seconds) of the interval
regex, or `none` when the string contains no `PT` at all. -/
def intervalGroups (s : String) : Option (Option Nat × Option Nat × Option Nat) :=
  match findPT s.data with
  | none => none
  | some rest =>
      let (h, rest1) := parseComp 'H' rest
      let (m, rest2) := parseComp 'M' rest1
      let (sec, _) := parseComp 'S' rest2
      some (h, m, sec)

/-- Total duration in milliseconds decoded from the interval groups
(`parseInt(match[i] || '0', 10)` then unit conversion). -/
def intervalTotalMs (s : String) : Nat :=
  match intervalGroups s with
  | none => 0
  | some (h, m, sec) =>
      h.getD 0 * 3600000 + m.getD 0 * 60000 + sec.getD 0 * 1000

/-- SchedulerService.calculateNextRunFromInterval: null match throws
`Invalid interval format`, zero total throws `Interval must be greater
than 0`, otherwise `from + totalMs`. -/
def calculateNextRunFromInterval (interval : String) (t0 : Nat) :
    Except CalcError Nat :=
  match intervalGroups interval with
  | none => .error .invalidIntervalFormat
  | some _ =>
      if intervalTotalMs interval = 0 then .error .intervalMustBePositive
      else .ok (t0 + intervalTotalMs interval)

/-- The `schedule.startsWith('PT')` test of `calculateNextRun`. -/
def startsPT (s : String) : Bool :=
  match s.data with
  | c1 :: c2 :: _ => c1 = 'P' && c2 = 'T'
  | _ => false

/-- SchedulerService.calculateNextRun; the `new Date()` it reads is passed
in as `now`. -/
def calculateNextRun (schedule : String) (now : Nat) : Except CalcError Nat :=
  if startsPT schedule then calculateNextRunFromInterval schedule now
  else calculateNextRunFromCron schedule now

/-! ### Scheduler state: the two in-memory Maps and the persisted store -/

/-- Entry of the `scheduledJobs` Map (interface ScheduledJob): the armed
`setTimeout` is represented by the delay it was armed with. -/
structure ScheduledEntry where
  id : String
  nextRunAt : Nat
  delay : Int
deriving DecidableEq, Repr

/-- Entry of the `executingJobs` Map (interface ExecutingJob). -/
structure ExecutingEntry where
  id : String
  startTime : Nat
deriving DecidableEq, Repr

/-- The mutable state of SchedulerService plus the repository rows it
reads and writes: `scheduledJobs` and `executingJobs` are the two Maps
(association lists with unique keys maintained by Map-style set/delete),
`store` is the persisted jobs table. -/
structure SchedState where
  scheduledJobs : List ScheduledEntry
  executingJobs : List ExecutingEntry
  store : List Job
deriving DecidableEq, Repr

/-- `jobRepository.findOne({ where: { id } })`. -/
def storeFind (store : List Job) (id : String) : Option Job :=
  store.find? (fun j => j.id = id)

/-- `jobRepository.save(job)`: upsert by primary key. -/
def storeSave (store : List Job) (j : Job) : List Job :=
  if store.any (fun x => x.id = j.id) then
    store.map (fun x => if x.id = j.id then j else x)
  else store ++ [j]

/-- `this.executingJobs.has(id)`. -/
def guardHas (st : SchedState) (id : String) : Bool :=
  st.executingJobs.any (fun e => e.id = id)

/-- `this.executingJobs.delete(id)`. -/
def guardDelete (st : SchedState) (id : String) : SchedState :=
  { st with executingJobs := st.executingJobs.filter (fun e => e.id ≠ id) }

/-- `this.executingJobs.set(id, { id, startTime })`. -/
def guardSet (st : SchedState) (id : String) (startTime : Nat) : SchedState :=
  { st with executingJobs :=
      st.executingJobs.filter (fun e => e.id ≠ id) ++ [⟨id, startTime⟩] }

/-- Lookup in the Due-Time Index: `this.scheduledJobs.get(id)`. -/
def lookupSched (st : SchedState) (id : String) : Option ScheduledEntry :=
  st.scheduledJobs.find? (fun e => e.id = id)

/-- SchedulerService.unscheduleJob: if an entry is present, clear its
timeout and delete it; otherwise nothing happens (the filter realises
both cases). -/
def unscheduleJob (st : SchedState) (jobId : String) : SchedState :=
  { st with scheduledJobs := st.scheduledJobs.filter (fun e => e.id ≠ jobId) }

/-- The `job.nextRunAt || this.calculateNextRun(job.schedule)` step of
`scheduleJob` (a Date object is always truthy, so only a null column
falls through to the calculator). -/
def resolveNextRunAt (job : Job) (now : Nat) : Except CalcError Nat :=
  match job.nextRunAt with
  | some t => .ok t
  | none => calculateNextRun job.schedule now

/-- SchedulerService.scheduleJob: no-op unless Active; unschedule any
existing entry; resolve the due time (the calculator may throw); arm a
timeout with delay `Math.max(0, nextRunAt - now)` and store the Map
entry. -/
def scheduleJob (st : SchedState) (now : Nat) (job : Job) :
    Except CalcError SchedState :=
  if job.status ≠ JobStatus.active then .ok st
  else
    let st1 := unscheduleJob st job.id
    match resolveNextRunAt job now with
    | .error e => .error e
    | .ok nextRunAt =>
        let delay : Int := max 0 ((nextRunAt : Int) - (now : Int))
        .ok { st1 with scheduledJobs :=
                st1.scheduledJobs ++ [⟨job.id, nextRunAt, delay⟩] }

/-! ### executeJob -/

/-- External outcomes of one executeJob invocation, in source order: the
clock reads, the executor's result, and fault injection for each
repository call (a `some msg` models the call throwing `msg`). -/
structure ExecEnv where
  tStart : Nat
  tLastRun : Nat
  findThrows : Option String
  execOutcome : Except String Unit
  calcNow : Nat
  saveSuccessThrows : Option String
  schedNow : Nat
  catchFindThrows : Option String
  catchSave1Throws : Option String
  catchNow : Nat
  catchSave2Throws : Option String
  schedNow2 : Nat
deriving Repr

/-- Result of one executeJob invocation: final state, whether an
exception escapes the invocation (only possible from the catch block),
whether the guard was passed (an execution attempt was performed), and
whether the external executor was actually invoked. -/
structure ExecResult where
  state : SchedState
  outcome : Except String Unit
  attempted : Bool
  executorInvoked : Bool
deriving DecidableEq, Repr

/-- The error messages of the calculator throw sites, as caught by the
`catch` block of executeJob. -/
def calcErrMsg : CalcError → String
  | .invalidIntervalFormat => "Invalid interval format"
  | .intervalMustBePositive => "Interval must be greater than 0"
  | .invalidCronExpression => "Invalid cron expression"
  | .noFeasibleRun => "Could not find next run time"

/-- Outcome of the `try` block of executeJob. -/
inductive TryRes where
  | earlyReturn (st : SchedState)
  | completed (st : SchedState)
  | thrown (st : SchedState) (msg : String) (invoked : Bool)

/-- The `try` block of executeJob (lines 177-208): reload the job; abort
(deleting the guard entry) when it is gone or no longer Active; stamp
`lastRunAt`, bump `runCount`, run the executor, compute the next due
time, clear `lastError`, persist, reschedule.  Every `throw` in the block
surfaces as `TryRes.thrown` with the state at the time of the throw. -/
def execTry (st : SchedState) (env : ExecEnv) (job : Job) : TryRes :=
  match env.findThrows with
  | some m => .thrown st m false
  | none =>
    match storeFind st.store job.id with
    | none => .earlyReturn (guardDelete st job.id)
    | some fresh =>
      if fresh.status ≠ JobStatus.active then .earlyReturn (guardDelete st job.id)
      else
        let fresh1 := { fresh with lastRunAt := some env.tLastRun,
                                   runCount := fresh.runCount + 1 }
        match env.execOutcome with
        | .error m => .thrown st m true
        | .ok _ =>
          match calculateNextRun fresh1.schedule env.calcNow with
          | .error e => .thrown st (calcErrMsg e) true
          | .ok nextRunAt =>
            let fresh2 := { fresh1 with nextRunAt := some nextRunAt,
                                        lastError := none }
            match env.saveSuccessThrows with
            | some m => .thrown st m true
            | none =>
              let st1 := { st with store := storeSave st.store fresh2 }
              match scheduleJob st1 env.schedNow fresh2 with
              | .error e => .thrown st1 (calcErrMsg e) true
              | .ok st2 => .completed st2

/-- The `catch` block of executeJob (lines 209-229): reload the job; if
still present, bump `failureCount`, record the error message, persist,
compute `min(2 ** failureCount * 60000, 3600000)` from the already
incremented count, set `nextRunAt = Date.now() + backoff`, persist again
and reschedule.  A throw inside the catch block escapes the invocation. -/
def execCatch (st : SchedState) (env : ExecEnv) (jobId msg : String) :
    SchedState × Except String Unit :=
  match env.catchFindThrows with
  | some m => (st, .error m)
  | none =>
    match storeFind st.store jobId with
    | none => (st, .ok ())
    | some fresh =>
      let fresh1 := { fresh with failureCount := fresh.failureCount + 1,
                                 lastError := some msg }
      match env.catchSave1Throws with
      | some m => (st, .error m)
      | none =>
        let st1 := { st with store := storeSave st.store fresh1 }
        let backoffDelay := min (2 ^ fresh1.failureCount * 60000) 3600000
        let nextRunAt := env.catchNow + backoffDelay
        let fresh2 := { fresh1 with nextRunAt := some nextRunAt }
        match env.catchSave2Throws with
        | some m => (st1, .error m)
        | none =>
          let st2 := { st1 with store := storeSave st1.store fresh2 }
          match scheduleJob st2 env.schedNow2 fresh2 with
          | .error e => (st2, .error (calcErrMsg e))
          | .ok st3 => (st3, .ok ())

/-- The backoff delay formula of the catch block, as a function of the
(already incremented) failure count. -/
def backoffDelay (failureCount : Nat) : Nat :=
  min (2 ^ failureCount * 60000) 3600000

/-- try/catch/finally composition of the body of executeJob once the
guard has been entered; the `finally` deletes the guard entry on every
path, including when the catch block itself throws. -/
def executeBody (st : SchedState) (env : ExecEnv) (job : Job) : ExecResult :=
  match execTry st env job with
  | .earlyReturn st1 => ⟨guardDelete st1 job.id, .ok (), true, false⟩
  | .completed st1 => ⟨guardDelete st1 job.id, .ok (), true, true⟩
  | .thrown st1 msg invoked =>
      let r := execCatch st1 env job.id msg
      ⟨guardDelete r.1 job.id, r.2, true, invoked⟩

/-- SchedulerService.executeJob: duplicate suppression against the
`executingJobs` Map (only a warning is logged, nothing else happens),
otherwise enter the guard and run the body. -/
def executeJob (st : SchedState) (env : ExecEnv) (job : Job) : ExecResult :=
  if guardHas st job.id then ⟨st, .ok (), false, false⟩
  else executeBody (guardSet st job.id env.tStart) env job

/-! ### loadActiveJobs (the startup Reconciler) -/

/-- The `for (const job of jobsToUpdate) job.nextRunAt = calculateNextRun(...)`
loop: each job in order gets a computed due time; the first calculator
throw aborts the whole routine. -/
def computeDueTimes (now : Nat) : List Job → Except CalcError (List Job)
  | [] => .ok []
  | j :: rest =>
    match calculateNextRun j.schedule now with
    | .error e => .error e
    | .ok t =>
      match computeDueTimes now rest with
      | .error e => .error e
      | .ok js => .ok ({ j with nextRunAt := some t } :: js)

/-- The `for (const job of activeJobs) await this.scheduleJob(job)` loop;
a throw aborts the remainder. -/
def scheduleAll (st : SchedState) (now : Nat) :
    List Job → Except CalcError SchedState
  | [] => .ok st
  | j :: rest =>
    match scheduleJob st now j with
    | .error e => .error e
    | .ok st1 => scheduleAll st1 now rest

/-- The aliasing of the mutated row objects: a job of `activeJobs` that
was also in `jobsToUpdate` is, after the update loop, the updated object
(same identity); all others are untouched. -/
def reconSubst (updated : List Job) (j : Job) : Job :=
  match updated.find? (fun u => u.id = j.id) with
  | some u => u
  | none => j

/-- SchedulerService.loadActiveJobs: select Active rows, compute due
times for those lacking one, batch-save them, then schedule every active
job (the in-place mutation of the shared row objects is modelled by
substituting the updated row via `reconSubst`).  The surrounding
`try/catch` turns any throw into a logged error with no further effect;
the returned Bool records whether the catch branch ran. -/
def loadActiveJobs (st : SchedState) (now : Nat) : SchedState × Bool :=
  let activeJobs := st.store.filter (fun j => j.status = JobStatus.active)
  let jobsToUpdate := activeJobs.filter (fun j => j.nextRunAt = none)
  match computeDueTimes now jobsToUpdate with
  | .error _ => (st, true)
  | .ok updated =>
    let st1 := { st with store := updated.foldl storeSave st.store }
    let toSchedule := activeJobs.map (reconSubst updated)
    match scheduleAll st1 now toSchedule with
    | .error _ => (st1, true)
    | .ok st2 => (st2, false)

/-! ### Fixtures for witnesses and counterexamples -/

/-- A minimal active job with an interval schedule and a due time. -/
def jobA : Job :=
  { id := "a", name := "A", schedule := "PT1H", status := JobStatus.active,
    nextRunAt := some 60000, lastRunAt := none, runCount := 0,
    failureCount := 0, lastError := none }

/-- A paused job. -/
def jobPaused : Job :=
  { jobA with id := "p", name := "P", status := JobStatus.paused }

/-- The empty scheduler state. -/
def stEmpty : SchedState := ⟨[], [], []⟩

/-- State whose store holds exactly `jobA`. -/
def stWithJobA : SchedState := ⟨[], [], [jobA]⟩

/-- Environment with no injected faults and a succeeding executor. -/
def envOk : ExecEnv :=
  { tStart := 0, tLastRun := 1, findThrows := none, execOutcome := .ok (),
    calcNow := 2, saveSuccessThrows := none, schedNow := 3,
    catchFindThrows := none, catchSave1Throws := none, catchNow := 4,
    catchSave2Throws := none, schedNow2 := 5 }

/-! ### Claim about the Due-Time Index -/

/-- Replacement of the `scheduledJobs` Map, used to phrase expected
states of the Due-Time Index. -/
def setSched (st : SchedState) (l : List ScheduledEntry) : SchedState :=
  { st with scheduledJobs := l }

/-! ### Claim about cron field error handling -/

/-- The disjunction of the branch guards of `matchesCronField`: the token
shapes the source recognises (`*`, `*/n`, bare integer, `a-b` range, or
anything containing a comma). -/
def recognizedToken (field : String) : Bool :=
  field = "*" || (stepOf field.data).isSome || allDigits field.data ||
    (rangeOf field.data).isSome || field.data.contains ','

/-! ### Claims about the Dispatcher update paths -/

/-- The success-path job update of executeJob: stamp `lastRunAt`, bump
`runCount`, store the freshly computed due time, clear `lastError` —
and nothing else. -/
def applySuccess (f : Job) (tRun nxt : Nat) : Job :=
  { f with lastRunAt := some tRun, runCount := f.runCount + 1,
           nextRunAt := some nxt, lastError := none }

/-- The failure-path job update of executeJob: bump `failureCount`,
record the error message, store the backoff due time — and nothing
else. -/
def applyFailure (f : Job) (msg : String) (nxt : Nat) : Job :=
  { f with failureCount := f.failureCount + 1, lastError := some msg,
           nextRunAt := some nxt }

/-- Fixture: an active job whose stored failure count is 3. -/
def jobC : Job :=
  { id := "c", name := "C", schedule := "PT1H", status := JobStatus.active,
    nextRunAt := some 0, lastRunAt := none, runCount := 0,
    failureCount := 3, lastError := none }

/-- Fixture: state whose store holds exactly `jobC`. -/
def stWithJobC : SchedState := ⟨[], [], [jobC]⟩

/-- Fixture: environment whose executor fails with message `boom`. -/
def envFail : ExecEnv := { envOk with execOutcome := .error "boom" }

/-- Fixture: an active job lacking a due time whose schedule is
rejected by the calculator. -/
def jobBad : Job :=
  { id := "b", name := "B", schedule := "PT0S", status := JobStatus.active,
    nextRunAt := none, lastRunAt := none, runCount := 0,
    failureCount := 0, lastError := none }

/-- Fixture: an active job lacking a due time with a perfectly good
schedule. -/
def jobGood : Job :=
  { id := "g", name := "G", schedule := "PT1H", status := JobStatus.active,
    nextRunAt := none, lastRunAt := none, runCount := 0,
    failureCount := 0, lastError := none }

/-- Fixture: startup state holding the bad and the good job. -/
def stReconcile : SchedState := ⟨[], [], [jobBad, jobGood]⟩

/-! ### Theorems -/

/-! ### Helper lemmas -/

@[simp] theorem guardSet_store (st : SchedState) (i : String) (t : Nat) :
    (guardSet st i t).store = st.store := rfl

@[simp] theorem guardSet_scheduledJobs (st : SchedState) (i : String) (t : Nat) :
    (guardSet st i t).scheduledJobs = st.scheduledJobs := rfl

@[simp] theorem guardDelete_store (st : SchedState) (i : String) :
    (guardDelete st i).store = st.store := rfl

@[simp] theorem guardDelete_scheduledJobs (st : SchedState) (i : String) :
    (guardDelete st i).scheduledJobs = st.scheduledJobs := rfl

theorem guardHas_guardDelete (st : SchedState) (i : String) :
    guardHas (guardDelete st i) i = false := by
  simp only [guardHas, guardDelete, List.any_eq_false, List.mem_filter,
    decide_eq_true_eq]
  intro e he
  simpa using he.2

theorem guardHas_guardSet (st : SchedState) (i : String) (t : Nat) :
    guardHas (guardSet st i t) i = true := by
  simp [guardHas, guardSet]

theorem executeBody_attempted (st : SchedState) (env : ExecEnv) (job : Job) :
    (executeBody st env job).attempted = true := by
  unfold executeBody
  cases execTry st env job <;> rfl

/-! ### Claims about executeJob: duplicate suppression and guard release -/

/-- C1: if the job's identity is already in the Execution Guard
(`executingJobs`), `executeJob` performs no execution attempt, invokes
nothing, changes no state and returns normally; otherwise the identity
is inserted and the attempt proceeds (`attempted = true`), and a second
dispatch arriving while the first holds the guard is suppressed in
exactly that way, so two dispatches of the same job perform exactly one
attempt. -/
theorem spec_C1 (st : SchedState) (env env2 : ExecEnv) (job : Job) :
    (guardHas st job.id = true →
      executeJob st env job = ⟨st, .ok (), false, false⟩)
    ∧ (guardHas st job.id = false →
      (executeJob st env job).attempted = true
      ∧ executeJob (guardSet st job.id env.tStart) env2 job
          = ⟨guardSet st job.id env.tStart, .ok (), false, false⟩) := by
  constructor
  · intro h
    unfold executeJob
    rw [h]
    simp
  · intro h
    refine ⟨?_, ?_⟩
    · unfold executeJob
      rw [h]
      simpa using executeBody_attempted (guardSet st job.id env.tStart) env job
    · unfold executeJob
      rw [guardHas_guardSet]
      simp

/-- Witness for C1 at a concrete state: a dispatch of `jobA` while the
guard already holds `"a"` returns with nothing changed. -/
theorem spec_C1_witness :
    executeJob ⟨[], [⟨"a", 0⟩], [jobA]⟩ envOk jobA
      = ⟨⟨[], [⟨"a", 0⟩], [jobA]⟩, .ok (), false, false⟩ :=
  (spec_C1 ⟨[], [⟨"a", 0⟩], [jobA]⟩ envOk envOk jobA).1 (by decide)

/-- C6: whatever the environment does (executor failure, store-write
failure, reload failure, job gone or paused, success), an invocation of
`executeJob` that entered the guard leaves the identity absent from the
Execution Guard when it returns. -/
theorem spec_C6 (st : SchedState) (env : ExecEnv) (job : Job)
    (h : guardHas st job.id = false) :
    guardHas (executeJob st env job).state job.id = false := by
  have hbody : ∀ st', guardHas (executeBody st' env job).state job.id = false := by
    intro st'
    unfold executeBody
    cases execTry st' env job <;> simp [guardHas_guardDelete]
  unfold executeJob
  rw [h]
  simpa using hbody (guardSet st job.id env.tStart)

/-- Witness for C6: a full successful invocation on `stWithJobA` leaves
the guard empty of `"a"`. -/
theorem spec_C6_witness :
    guardHas (executeJob stWithJobA envOk jobA).state jobA.id = false :=
  spec_C6 stWithJobA envOk jobA (by decide)

/-- C7: scheduleJob is a no-op for a non-Active job; for an Active job it
first removes any existing entry for the identity and installs exactly
one new entry with timer delay `max 0 (nextDueAt - now)`; unscheduleJob
removes the entry if present and is a no-op otherwise, and unscheduling
twice equals unscheduling once; the per-identity uniqueness of the index
is preserved by both operations. -/
theorem spec_C7 (st : SchedState) (now : Nat) (job : Job) (jobId : String) :
    (job.status ≠ JobStatus.active → scheduleJob st now job = .ok st)
    ∧ (∀ t, job.status = JobStatus.active → resolveNextRunAt job now = .ok t →
        scheduleJob st now job = .ok (setSched st
          (st.scheduledJobs.filter (fun e => e.id ≠ job.id) ++
            [⟨job.id, t, max 0 ((t : Int) - (now : Int))⟩]))
        ∧ ∀ st', scheduleJob st now job = .ok st' →
            st'.scheduledJobs.countP (fun e => e.id = job.id) = 1)
    ∧ (lookupSched st jobId = none → unscheduleJob st jobId = st)
    ∧ unscheduleJob (unscheduleJob st jobId) jobId = unscheduleJob st jobId
    ∧ ((st.scheduledJobs.map (fun e => e.id)).Nodup →
        (∀ st', scheduleJob st now job = .ok st' →
          (st'.scheduledJobs.map (fun e => e.id)).Nodup)
        ∧ ((unscheduleJob st jobId).scheduledJobs.map (fun e => e.id)).Nodup) := by
  refine ⟨?_, ?_, ?_, ?_, ?_⟩
  · intro h
    simp [scheduleJob, h]
  · intro t hs ht
    have heq : scheduleJob st now job = .ok (setSched st
        (st.scheduledJobs.filter (fun e => e.id ≠ job.id) ++
          [⟨job.id, t, max 0 ((t : Int) - (now : Int))⟩])) := by
      simp [scheduleJob, hs, ht, unscheduleJob, setSched]
    refine ⟨heq, ?_⟩
    intro st' hok
    rw [heq] at hok
    cases hok
    simp only [setSched, List.countP_append]
    have h0 : (st.scheduledJobs.filter (fun e => e.id ≠ job.id)).countP
        (fun e => decide (e.id = job.id)) = 0 := by
      rw [List.countP_eq_zero]
      intro e he
      have := (List.mem_filter.mp he).2
      simpa using this
    simp [h0]
  · intro h
    have h' := List.find?_eq_none.mp h
    obtain ⟨sj, ej, sto⟩ := st
    simp only [unscheduleJob]
    congr 1
    apply List.filter_eq_self.mpr
    intro a ha
    simpa using h' a ha
  · obtain ⟨sj, ej, sto⟩ := st
    simp only [unscheduleJob]
    congr 1
    rw [List.filter_filter]
    congr 1
    funext e
    by_cases he : e.id = jobId <;> simp [he]
  · intro hnd
    constructor
    · intro st' hok
      by_cases hs : job.status = JobStatus.active
      · cases hr : resolveNextRunAt job now with
        | error e => simp [scheduleJob, hs, hr] at hok
        | ok t =>
          have heq : st' = setSched st
              (st.scheduledJobs.filter (fun e => e.id ≠ job.id) ++
                [⟨job.id, t, max 0 ((t : Int) - (now : Int))⟩]) := by
            have h2 := hok
            simp [scheduleJob, hs, hr, unscheduleJob, setSched] at h2 ⊢
            exact h2.symm
          rw [heq]
          simp only [setSched, List.map_append]
          apply List.Nodup.append
          · exact hnd.sublist (List.Sublist.map _ (List.filter_sublist _))
          · simp
          · intro x hx1 hx2
            simp only [List.mem_map, List.mem_filter] at hx1
            obtain ⟨e, ⟨_, hne⟩, hxe⟩ := hx1
            simp only [List.map_cons, List.map_nil, List.mem_singleton] at hx2
            apply absurd (hxe.trans hx2)
            simpa using hne
      · simp [scheduleJob, hs] at hok
        rw [← hok]
        exact hnd
    · exact hnd.sublist (List.Sublist.map _ (List.filter_sublist _))

/-- Witness for C7: scheduling a paused job changes nothing, and
unscheduling an identity with no entry changes nothing. -/
theorem spec_C7_witness :
    scheduleJob stEmpty 0 jobPaused = .ok stEmpty
    ∧ unscheduleJob stEmpty "z" = stEmpty :=
  ⟨(spec_C7 stEmpty 0 jobPaused "z").1 (by decide),
   (spec_C7 stEmpty 0 jobPaused "z").2.2.1 (by decide)⟩

/-! ### Characterisation of the cron search loop -/

theorem cronSearch_zero (mi h d mo w : String) (s : Nat) :
    cronSearch mi h d mo w s 0 = .error CalcError.noFeasibleRun := rfl

theorem cronSearch_succ (mi h d mo w : String) (s f : Nat) :
    cronSearch mi h d mo w s (f + 1) =
      if matchesAllFields mi h d mo w s then .ok s
      else cronSearch mi h d mo w (s + 60000) f := rfl

/-- The search returns exactly the first matching candidate, if any
candidate within the fuel horizon matches. -/
theorem cronSearch_ok_iff (mi h d mo w : String) (fuel : Nat) :
    ∀ s t, cronSearch mi h d mo w s fuel = .ok t ↔
      ∃ k, k < fuel ∧ t = s + k * 60000 ∧
        matchesAllFields mi h d mo w (s + k * 60000) = true ∧
        ∀ j, j < k → matchesAllFields mi h d mo w (s + j * 60000) = false := by
  induction fuel with
  | zero =>
    intro s t
    simp [cronSearch_zero]
  | succ f ih =>
    intro s t
    rw [cronSearch_succ]
    by_cases hm : matchesAllFields mi h d mo w s = true
    · rw [if_pos hm]
      constructor
      · intro h'
        injection h' with h'
        exact ⟨0, Nat.succ_pos _, by simpa using h'.symm, by simpa using hm,
          fun j hj => absurd hj (by omega)⟩
      · rintro ⟨k, hk, ht, hmk, hprev⟩
        rcases Nat.eq_zero_or_pos k with hk0 | hkpos
        · subst hk0
          simp only [Nat.zero_mul, Nat.add_zero] at ht
          rw [ht]
        · exact absurd (hprev 0 hkpos) (by simpa using hm)
    · rw [if_neg (by simpa using hm)]
      rw [ih (s + 60000) t]
      constructor
      · rintro ⟨k, hk, ht, hmk, hprev⟩
        refine ⟨k + 1, by omega, by rw [ht]; ring, by convert hmk using 2; ring, ?_⟩
        intro j hj
        rcases Nat.eq_zero_or_pos j with hj0 | hjpos
        · subst hj0
          simpa using (Bool.not_eq_true _).mp hm
        · have hp := hprev (j - 1) (by omega)
          convert hp using 2
          omega
      · rintro ⟨k, hk, ht, hmk, hprev⟩
        rcases Nat.eq_zero_or_pos k with hk0 | hkpos
        · subst hk0
          simp only [Nat.zero_mul, Nat.add_zero] at hmk
          exact absurd hmk hm
        · refine ⟨k - 1, by omega, by rw [ht]; omega, ?_, ?_⟩
          · convert hmk using 2
            omega
          · intro j hj
            have hp := hprev (j + 1) (by omega)
            convert hp using 2
            omega

/-- The search exhausts its fuel with `noFeasibleRun` exactly when no
candidate within the horizon matches. -/
theorem cronSearch_err_iff (mi h d mo w : String) (fuel : Nat) :
    ∀ s, cronSearch mi h d mo w s fuel = .error CalcError.noFeasibleRun ↔
      ∀ k, k < fuel → matchesAllFields mi h d mo w (s + k * 60000) = false := by
  induction fuel with
  | zero =>
    intro s
    simp [cronSearch_zero]
  | succ f ih =>
    intro s
    rw [cronSearch_succ]
    by_cases hm : matchesAllFields mi h d mo w s = true
    · rw [if_pos hm]
      constructor
      · intro h'
        cases h'
      · intro hall
        have := hall 0 (by omega)
        simp only [Nat.zero_mul, Nat.add_zero] at this
        rw [this] at hm
        cases hm
    · rw [if_neg (by simpa using hm)]
      rw [ih (s + 60000)]
      constructor
      · intro hall k hk
        rcases Nat.eq_zero_or_pos k with hk0 | hkpos
        · subst hk0
          simpa using (Bool.not_eq_true _).mp hm
        · have hp := hall (k - 1) (by omega)
          convert hp using 2
          omega
      · intro hall k hk
        have hp := hall (k + 1) (by omega)
        convert hp using 2
        omega

/-- The search can only fail with `noFeasibleRun`. -/
theorem cronSearch_err_shape (mi h d mo w : String) (fuel : Nat) :
    ∀ s e, cronSearch mi h d mo w s fuel = .error e →
      e = CalcError.noFeasibleRun := by
  induction fuel with
  | zero =>
    intro s e h'
    rw [cronSearch_zero] at h'
    injection h' with h'
    exact h'.symm
  | succ f ih =>
    intro s e h'
    rw [cronSearch_succ] at h'
    by_cases hm : matchesAllFields mi h d mo w s = true
    · rw [if_pos hm] at h'
      cases h'
    · rw [if_neg (by simpa using hm)] at h'
      exact ih _ _ h'

/-- A successful search never returns a candidate before its start. -/
theorem cronSearch_ok_ge (mi h d mo w : String) (fuel : Nat) :
    ∀ s t, cronSearch mi h d mo w s fuel = .ok t → s ≤ t := by
  induction fuel with
  | zero =>
    intro s t h'
    cases h'
  | succ f ih =>
    intro s t h'
    rw [cronSearch_succ] at h'
    by_cases hm : matchesAllFields mi h d mo w s = true
    · rw [if_pos hm] at h'
      injection h' with h'
      omega
    · rw [if_neg (by simpa using hm)] at h'
      have := ih (s + 60000) t h'
      omega

/-- A successful interval computation is `from + total` with positive
total. -/
theorem interval_ok (s : String) (now t : Nat)
    (h : calculateNextRunFromInterval s now = .ok t) :
    t = now + intervalTotalMs s ∧ intervalTotalMs s ≠ 0 := by
  unfold calculateNextRunFromInterval at h
  cases hg : intervalGroups s with
  | none =>
    rw [hg] at h
    cases h
  | some g =>
    rw [hg] at h
    by_cases h0 : intervalTotalMs s = 0
    · rw [if_pos h0] at h
      cases h
    · rw [if_neg h0] at h
      injection h with h
      exact ⟨h.symm, h0⟩

theorem lt_truncMinute_add (now : Nat) : now < truncMinute now + 60000 := by
  unfold truncMinute
  omega

/-! ### Claims about the calculator -/

/-- C9: every accepted schedule yields a due time strictly greater than
the reference time (for cron schedules even strictly after the reference
rounded down to the minute; for PT intervals it is the reference plus a
positive total), and the failure-path backoff due time is strictly
greater than the `now` it is computed from. -/
theorem spec_C9 :
    (∀ (s : String) (now t : Nat), calculateNextRun s now = .ok t → now < t)
    ∧ (∀ (s : String) (now t : Nat), startsPT s = false →
        calculateNextRun s now = .ok t → truncMinute now < t)
    ∧ (∀ (c now : Nat), now < now + backoffDelay c) := by
  have hcron : ∀ (s : String) (now t : Nat),
      calculateNextRunFromCron s now = .ok t → truncMinute now + 60000 ≤ t := by
    intro s now t h'
    unfold calculateNextRunFromCron at h'
    cases htok : wsTokens s with
    | nil => rw [htok] at h'; cases h'
    | cons a rest =>
      rw [htok] at h'
      match rest, h' with
      | [b, c, d, e], h' => exact cronSearch_ok_ge a b c d e 10080 _ t h'
      | [], h' => cases h'
      | [b], h' => cases h'
      | [b, c], h' => cases h'
      | [b, c, d], h' => cases h'
      | b :: c :: d :: e :: f :: rest', h' => cases h'
  refine ⟨?_, ?_, ?_⟩
  · intro s now t h'
    unfold calculateNextRun at h'
    by_cases hp : startsPT s = true
    · rw [if_pos hp] at h'
      obtain ⟨ht, hne⟩ := interval_ok s now t h'
      omega
    · rw [if_neg hp] at h'
      have h1 := hcron s now t h'
      have h2 := lt_truncMinute_add now
      omega
  · intro s now t hp h'
    unfold calculateNextRun at h'
    rw [if_neg (by simp [hp])] at h'
    have h1 := hcron s now t h'
    omega
  · intro c now
    have h1 : 1 ≤ 2 ^ c := Nat.one_le_two_pow
    unfold backoffDelay
    omega

/-- Witness for C9 at concrete inputs: an interval, a cron schedule and
a backoff instance. -/
theorem spec_C9_witness :
    ((0 : Nat) < 3600000)
    ∧ truncMinute 1704067200000 < 1704067500000
    ∧ (5 : Nat) < 5 + backoffDelay 0 := by
  refine ⟨?_, ?_, ?_⟩
  · exact spec_C9.1 "PT1H" 0 3600000 (by decide)
  · exact spec_C9.2.1 "*/5 * * * *" 1704067200000 1704067500000 (by decide)
      (by set_option maxRecDepth 100000 in decide)
  · exact spec_C9.2.2 0 5

set_option maxRecDepth 1000000 in
/-- C3: for a 5-field cron schedule the calculator tests, in order, the
candidates one minute, two minutes, ... after the reference truncated to
the minute (the source increments once before the first test), returns
the first candidate on which all five field matchers hold, and fails with
`noFeasibleRun` exactly when none of the 10080 successive minute
candidates matches; concretely a daily 9:00 schedule queried at
2024-01-01T10:00:00Z yields 2024-01-02T09:00:00Z. -/
theorem spec_C3 :
    (∀ (expr mi h d mo w : String) (t0 r : Nat),
      wsTokens expr = [mi, h, d, mo, w] →
      ((calculateNextRunFromCron expr t0 = .ok r ↔
          ∃ k, 1 ≤ k ∧ k ≤ 10080 ∧ r = truncMinute t0 + k * 60000 ∧
            matchesAllFields mi h d mo w (truncMinute t0 + k * 60000) = true ∧
            ∀ j, 1 ≤ j → j < k →
              matchesAllFields mi h d mo w (truncMinute t0 + j * 60000) = false)
        ∧ (calculateNextRunFromCron expr t0 = .error CalcError.noFeasibleRun ↔
            ∀ k, 1 ≤ k → k ≤ 10080 →
              matchesAllFields mi h d mo w (truncMinute t0 + k * 60000) = false)))
    ∧ calculateNextRun "0 9 * * *" 1704103200000 = .ok 1704186000000 := by
  constructor
  · intro expr mi h d mo w t0 r htok
    have hcalc : calculateNextRunFromCron expr t0 =
        cronSearch mi h d mo w (truncMinute t0 + 60000) 10080 := by
      unfold calculateNextRunFromCron
      rw [htok]
    rw [hcalc]
    constructor
    · rw [cronSearch_ok_iff]
      constructor
      · rintro ⟨k, hk, ht, hmk, hprev⟩
        refine ⟨k + 1, by omega, by omega, ?_, ?_, ?_⟩
        · rw [ht]
          ring
        · have harg : truncMinute t0 + 60000 + k * 60000
              = truncMinute t0 + (k + 1) * 60000 := by ring
          rw [← harg]
          exact hmk
        · intro j hj1 hjk
          have hp := hprev (j - 1) (by omega)
          have harg : truncMinute t0 + 60000 + (j - 1) * 60000
              = truncMinute t0 + j * 60000 := by omega
          rw [← harg]
          exact hp
      · rintro ⟨k, hk1, hk2, ht, hmk, hprev⟩
        refine ⟨k - 1, by omega, ?_, ?_, ?_⟩
        · rw [ht]
          omega
        · have harg : truncMinute t0 + 60000 + (k - 1) * 60000
              = truncMinute t0 + k * 60000 := by omega
          rw [harg]
          exact hmk
        · intro j hj
          have hp := hprev (j + 1) (by omega) (by omega)
          have harg : truncMinute t0 + 60000 + j * 60000
              = truncMinute t0 + (j + 1) * 60000 := by ring
          rw [harg]
          exact hp
    · rw [cronSearch_err_iff]
      constructor
      · intro hall k hk1 hk2
        have hp := hall (k - 1) (by omega)
        have harg : truncMinute t0 + 60000 + (k - 1) * 60000
            = truncMinute t0 + k * 60000 := by omega
        rw [← harg]
        exact hp
      · intro hall k hk
        have hp := hall (k + 1) (by omega) (by omega)
        have harg : truncMinute t0 + 60000 + k * 60000
            = truncMinute t0 + (k + 1) * 60000 := by ring
        rw [harg]
        exact hp
  · decide

/-- Witness for C3: the characterisation instantiated at the daily-9:00
example. -/
theorem spec_C3_witness :
    calculateNextRunFromCron "0 9 * * *" 1704103200000 = .ok 1704186000000 ↔
      ∃ k, 1 ≤ k ∧ k ≤ 10080 ∧
        1704186000000 = truncMinute 1704103200000 + k * 60000 ∧
        matchesAllFields "0" "9" "*" "*" "*"
          (truncMinute 1704103200000 + k * 60000) = true ∧
        ∀ j, 1 ≤ j → j < k →
          matchesAllFields "0" "9" "*" "*" "*"
            (truncMinute 1704103200000 + j * 60000) = false :=
  (spec_C3.1 "0 9 * * *" "0" "9" "*" "*" "*" 1704103200000 1704186000000
    (by decide)).1

/-- An unrecognised field token matches no value at all. -/
theorem matchesCronField_unrecognized (field : String)
    (hrec : recognizedToken field = false) (v : Nat) :
    matchesCronField field v = false := by
  unfold recognizedToken at hrec
  simp only [Bool.or_eq_false_iff] at hrec
  obtain ⟨⟨⟨⟨h1, h2⟩, h3⟩, h4⟩, h5⟩ := hrec
  unfold matchesCronField
  rw [if_neg (by simpa using h1)]
  cases hstep : stepOf field.data with
  | some n =>
    rw [hstep] at h2
    cases h2
  | none =>
    rw [if_neg (by simp [h3])]
    cases hrange : rangeOf field.data with
    | some p =>
      rw [hrange] at h4
      cases h4
    | none =>
      rw [if_neg (by rw [h5]; simp)]

/-- The minute field `foo` is unrecognised and matches nothing. -/
theorem matchesCronField_foo (v : Nat) : matchesCronField "foo" v = false :=
  matchesCronField_unrecognized "foo" (by decide) v

/-- A cron expression whose minute field matches no value exhausts the
search horizon and fails with `noFeasibleRun`. -/
theorem cron_minute_never_matches (expr mi h d mo w : String) (t0 : Nat)
    (htok : wsTokens expr = [mi, h, d, mo, w])
    (hmi : ∀ v, matchesCronField mi v = false) :
    calculateNextRunFromCron expr t0 = .error CalcError.noFeasibleRun := by
  unfold calculateNextRunFromCron
  rw [htok]
  rw [cronSearch_err_iff]
  intro k hk
  simp [matchesAllFields, hmi]

/-- C5 counterexample: the field token `foo` is none of the recognised
forms, yet `nextRun` on `foo * * * *` does not fail with
`InvalidSchedule` — it exhausts the horizon and fails with
`NoFeasibleRun`; and the comma list `5,foo` contains the undecodable
token `foo` yet still matches 5 (a partial match). -/
theorem spec_C5_cex :
    calculateNextRun "foo * * * *" 0 = .error CalcError.noFeasibleRun
    ∧ CalcError.noFeasibleRun.isInvalidSchedule = false
    ∧ matchesCronField "5,foo" 5 = true := by
  refine ⟨?_, rfl, by decide⟩
  unfold calculateNextRun
  rw [if_neg (by decide : ¬ startsPT "foo * * * *" = true)]
  exact cron_minute_never_matches "foo * * * *" "foo" "*" "*" "*" "*" 0
    (by decide) matchesCronField_foo

/-- C5 as amended: an unrecognised token never throws — it simply
matches no value, so a 5-field expression with such a minute token fails
only after exhausting the 10080-candidate horizon, with `NoFeasibleRun`
rather than `InvalidSchedule`; and in a comma list each token is decoded
independently (`parseInt`, NaN for undecodable tokens), so a list with an
undecodable token can still match on its decodable members. -/
theorem spec_C5 :
    (∀ field : String, recognizedToken field = false →
      ∀ v, matchesCronField field v = false)
    ∧ (∀ (expr mi h d mo w : String) (t0 : Nat),
        wsTokens expr = [mi, h, d, mo, w] →
        recognizedToken mi = false →
        calculateNextRunFromCron expr t0 = .error CalcError.noFeasibleRun)
    ∧ matchesCronField "5,foo" 5 = true
    ∧ matchesCronField "5,foo" 6 = false := by
  refine ⟨matchesCronField_unrecognized, ?_, by decide, by decide⟩
  intro expr mi h d mo w t0 htok hrec
  exact cron_minute_never_matches expr mi h d mo w t0 htok
    (matchesCronField_unrecognized mi hrec)

/-- Witness for C5 (amended): instantiated at the `foo * * * *`
expression. -/
theorem spec_C5_witness :
    calculateNextRunFromCron "foo * * * *" 7 = .error CalcError.noFeasibleRun :=
  spec_C5.2.1 "foo * * * *" "foo" "*" "*" "*" "*" 7 (by decide) (by decide)

/-! ### Claim about interval schedules -/

/-- A string passing the `startsWith('PT')` test has `P`, `T` as its
first two characters. -/
theorem startsPT_shape (s : String) (h : startsPT s = true) :
    ∃ rest, s.data = 'P' :: 'T' :: rest := by
  unfold startsPT at h
  rcases hd : s.data with _ | ⟨c1, _ | ⟨c2, rest⟩⟩ <;> rw [hd] at h
  · cases h
  · cases h
  · simp only [Bool.and_eq_true, decide_eq_true_eq] at h
    exact ⟨rest, by rw [h.1, h.2]⟩

/-- For a string beginning with `PT` the unanchored regex always
matches (all three groups are optional), so the null-match throw is
unreachable. -/
theorem intervalGroups_isSome (s : String) (h : startsPT s = true) :
    (intervalGroups s).isSome = true := by
  obtain ⟨rest, hd⟩ := startsPT_shape s h
  unfold intervalGroups
  rw [hd]
  rw [show findPT ('P' :: 'T' :: rest) = some rest from rfl]
  simp

/-- C4 counterexample: `PT5M6H` has its components out of order, so on
the claim's reading it should be rejected with `InvalidSchedule`; the
unanchored source regex instead matches the `PT5M` prefix and the
calculator accepts it as five minutes. -/
theorem spec_C4_cex :
    calculateNextRun "PT5M6H" 0 = .ok 300000
    ∧ ∀ e : CalcError, calculateNextRun "PT5M6H" 0 ≠ .error e := by
  refine ⟨by decide, ?_⟩
  intro e he
  rw [(by decide : calculateNextRun "PT5M6H" 0 = .ok 300000)] at he
  cases he

/-- C4 as amended: for a schedule beginning with `PT` the regex is
unanchored and all groups optional, so the pattern always matches (any
characters after the decoded in-order component prefix are ignored);
`nextRun` returns `from + total decoded duration` and fails with
`InvalidSchedule` (the `Interval must be greater than 0` throw) exactly
when the decoded total is zero; `PT1H` adds one hour and `PT0S` is
rejected. -/
theorem spec_C4 (s : String) (t : Nat) (hPT : startsPT s = true) :
    (intervalTotalMs s ≠ 0 →
      calculateNextRun s t = .ok (t + intervalTotalMs s))
    ∧ (intervalTotalMs s = 0 →
      calculateNextRun s t = .error CalcError.intervalMustBePositive
      ∧ CalcError.intervalMustBePositive.isInvalidSchedule = true)
    ∧ calculateNextRun "PT1H" t = .ok (t + 3600000)
    ∧ calculateNextRun "PT0S" t = .error CalcError.intervalMustBePositive := by
  have hg := intervalGroups_isSome s hPT
  have hcalc : calculateNextRun s t = calculateNextRunFromInterval s t := by
    unfold calculateNextRun
    rw [if_pos hPT]
  have h1h : ∀ u : Nat, calculateNextRun "PT1H" u = .ok (u + 3600000) := by
    intro u
    unfold calculateNextRun calculateNextRunFromInterval
    rw [if_pos (by decide)]
    rw [show intervalGroups "PT1H" = some (some 1, none, none) from rfl]
    rw [if_neg (by decide)]
    rw [show intervalTotalMs "PT1H" = 3600000 from rfl]
  have h0s : ∀ u : Nat,
      calculateNextRun "PT0S" u = .error CalcError.intervalMustBePositive := by
    intro u
    unfold calculateNextRun calculateNextRunFromInterval
    rw [if_pos (by decide)]
    rw [show intervalGroups "PT0S" = some (none, none, some 0) from rfl]
    rw [if_pos (by decide)]
  refine ⟨?_, ?_, h1h t, h0s t⟩
  · intro hne
    rw [hcalc]
    unfold calculateNextRunFromInterval
    cases hgv : intervalGroups s with
    | none =>
      rw [hgv] at hg
      cases hg
    | some g =>
      rw [if_neg hne]
  · intro h0
    refine ⟨?_, rfl⟩
    rw [hcalc]
    unfold calculateNextRunFromInterval
    cases hgv : intervalGroups s with
    | none =>
      rw [hgv] at hg
      cases hg
    | some g =>
      rw [if_pos h0]

/-- Witness for C4 (amended) at concrete inputs. -/
theorem spec_C4_witness :
    calculateNextRun "PT2M" 10 = .ok (10 + intervalTotalMs "PT2M")
    ∧ calculateNextRun "PT" 10 = .error CalcError.intervalMustBePositive :=
  ⟨(spec_C4 "PT2M" 10 (by decide)).1 (by decide),
   ((spec_C4 "PT" 10 (by decide)).2.1 (by decide)).1⟩

/-! ### Store lemmas -/

/-- find? over a row-replacing map hits the replacement. -/
theorem find_map_replace (l : List Job) (j : Job) (i : String) (hj : j.id = i)
    (hex : l.any (fun x => x.id = j.id) = true) :
    (l.map (fun x => if x.id = j.id then j else x)).find? (fun x => x.id = i)
      = some j := by
  induction l with
  | nil => cases hex
  | cons a rest ih =>
    simp only [List.any_cons, Bool.or_eq_true] at hex
    simp only [List.map_cons]
    by_cases ha : a.id = j.id
    · rw [if_pos ha, List.find?_cons_of_pos _ (by simpa using hj)]
    · rw [if_neg ha, List.find?_cons_of_neg _ ?hneg]
      · apply ih
        rcases hex with hca | hra
        · exact absurd (by simpa using hca) ha
        · exact hra
      case hneg =>
        simp only [decide_eq_true_eq]
        intro hcon
        exact ha (by rw [hcon, ← hj])

/-- find? over an appended fresh row hits the appended row. -/
theorem find_append_self (l : List Job) (j : Job) (i : String) (hj : j.id = i)
    (hex : l.any (fun x => x.id = j.id) = false) :
    (l ++ [j]).find? (fun x => x.id = i) = some j := by
  induction l with
  | nil => simp [List.find?, hj]
  | cons a rest ih =>
    simp only [List.any_cons, Bool.or_eq_false_iff] at hex
    rw [List.cons_append, List.find?_cons_of_neg _ ?hneg]
    · exact ih hex.2
    case hneg =>
      simp only [decide_eq_true_eq]
      intro hcon
      have := hex.1
      simp only [decide_eq_false_iff_not] at this
      exact this (by rw [hcon, ← hj])

/-- Reading back a saved row returns exactly the saved row. -/
theorem storeFind_storeSave (store : List Job) (j : Job) (i : String)
    (hj : j.id = i) : storeFind (storeSave store j) i = some j := by
  unfold storeFind storeSave
  by_cases hex : store.any (fun x => x.id = j.id) = true
  · rw [if_pos hex]
    exact find_map_replace store j i hj hex
  · rw [if_neg hex]
    exact find_append_self store j i hj (by simpa using hex)

/-- scheduleJob never touches the persisted store. -/
theorem scheduleJob_store (st : SchedState) (now : Nat) (j : Job)
    (st' : SchedState) (h : scheduleJob st now j = .ok st') :
    st'.store = st.store := by
  unfold scheduleJob at h
  by_cases hs : j.status = JobStatus.active
  · rw [if_neg (not_not_intro hs)] at h
    cases hr : resolveNextRunAt j now with
    | error e =>
      rw [hr] at h
      cases h
    | ok t =>
      rw [hr] at h
      injection h with h
      rw [← h]
      rfl
  · rw [if_pos hs] at h
    injection h with h
    rw [← h]

/-- scheduleJob never touches the Execution Guard. -/
theorem scheduleJob_executing (st : SchedState) (now : Nat) (j : Job)
    (st' : SchedState) (h : scheduleJob st now j = .ok st') :
    st'.executingJobs = st.executingJobs := by
  unfold scheduleJob at h
  by_cases hs : j.status = JobStatus.active
  · rw [if_neg (not_not_intro hs)] at h
    cases hr : resolveNextRunAt j now with
    | error e =>
      rw [hr] at h
      cases h
    | ok t =>
      rw [hr] at h
      injection h with h
      rw [← h]
      rfl
  · rw [if_pos hs] at h
    injection h with h
    rw [← h]

/-- An Active job with a present `nextRunAt` always schedules, and the
new entry carries exactly that due time. -/
theorem scheduleJob_some (st : SchedState) (now : Nat) (j : Job) (t : Nat)
    (hs : j.status = JobStatus.active) (ht : j.nextRunAt = some t) :
    scheduleJob st now j = .ok (setSched st
      (st.scheduledJobs.filter (fun e => e.id ≠ j.id) ++
        [⟨j.id, t, max 0 ((t : Int) - (now : Int))⟩])) := by
  unfold scheduleJob
  rw [if_neg (not_not_intro hs)]
  rw [show resolveNextRunAt j now = .ok t by unfold resolveNextRunAt; rw [ht]]
  rfl

/-- C10: on a successful attempt the persisted job is exactly the old
row with `lastRunAt`, `runCount`, `nextRunAt` and `lastError` (cleared)
updated; in particular `failureCount`, `status`, `schedule` and `id` are
untouched — a success never resets the failure counter. -/
theorem spec_C10 (st : SchedState) (env : ExecEnv) (job f : Job) (nxt : Nat)
    (hg : guardHas st job.id = false)
    (hft : env.findThrows = none)
    (hf : storeFind st.store job.id = some f)
    (hactive : f.status = JobStatus.active)
    (hexec : env.execOutcome = .ok ())
    (hcalc : calculateNextRun f.schedule env.calcNow = .ok nxt)
    (hsave : env.saveSuccessThrows = none) :
    storeFind (executeJob st env job).state.store job.id
      = some (applySuccess f env.tLastRun nxt)
    ∧ (applySuccess f env.tLastRun nxt).failureCount = f.failureCount
    ∧ (applySuccess f env.tLastRun nxt).id = f.id
    ∧ (applySuccess f env.tLastRun nxt).schedule = f.schedule
    ∧ (applySuccess f env.tLastRun nxt).status = f.status := by
  have hfid : f.id = job.id := by
    have := List.find?_some hf
    simpa using this
  refine ⟨?_, rfl, rfl, rfl, rfl⟩
  unfold executeJob
  rw [hg]
  simp only [Bool.false_eq_true, if_false]
  unfold executeBody execTry
  rw [hft]
  simp only [guardSet_store]
  rw [hf, hexec]
  dsimp only
  rw [if_neg (not_not_intro hactive)]
  rw [hcalc, hsave]
  dsimp only
  rw [scheduleJob_some _ _ _ nxt]
  · dsimp only
    simp only [guardDelete_store, setSched]
    exact storeFind_storeSave st.store _ job.id hfid
  · exact hactive
  · rfl

/-- Looking up an identity right after its entry was re-installed finds
exactly the new entry. -/
theorem find_filter_append (l : List ScheduledEntry) (e : ScheduledEntry)
    (i : String) (he : e.id = i) :
    (l.filter (fun x => x.id ≠ e.id) ++ [e]).find? (fun x => x.id = i)
      = some e := by
  induction l with
  | nil => simp [List.find?, he]
  | cons a rest ih =>
    by_cases ha : a.id = e.id
    · simp only [List.filter_cons]
      rw [if_neg (by simp [ha])]
      exact ih
    · simp only [List.filter_cons]
      rw [if_pos (by simpa using ha)]
      rw [List.cons_append, List.find?_cons_of_neg _ ?hneg]
      · exact ih
      case hneg =>
        simp only [decide_eq_true_eq]
        intro hcon
        exact ha (by rw [hcon, ← he])

/-- C2 counterexample: a failed attempt on a stored `failureCount = 3`
job sets the due time to `now + 16` minutes — the backoff exponent is
the already incremented count 4 — not `now + 8` minutes as the claim's
example states. -/
theorem spec_C2_cex :
    (executeJob stWithJobC envFail jobC).state.store
      = [applyFailure jobC "boom" 960004]
    ∧ 960004 = envFail.catchNow + backoffDelay (jobC.failureCount + 1)
    ∧ envFail.catchNow + 8 * 60000 = 480004
    ∧ (960004 : Nat) ≠ 480004 := by decide

/-- C2 as amended: after a failed attempt on a still-stored job the
Dispatcher increments `failureCount`, records the message in
`lastError`, sets `nextDueAt = now + min(2^failureCount minutes, 60
minutes)` using the incremented count — so a stored `failureCount` of 3
gives `now + 16` minutes and a stored `failureCount` of 10 gives
`now + 60` minutes — persists the job, reschedules it at exactly that
explicit due time (no parse of the schedule string is required), and
leaves `status` unchanged. -/
theorem spec_C2 (st : SchedState) (env : ExecEnv) (job f : Job) (msg : String)
    (hg : guardHas st job.id = false)
    (hft : env.findThrows = none)
    (hf : storeFind st.store job.id = some f)
    (hactive : f.status = JobStatus.active)
    (hexec : env.execOutcome = .error msg)
    (hcf : env.catchFindThrows = none)
    (hcs1 : env.catchSave1Throws = none)
    (hcs2 : env.catchSave2Throws = none) :
    storeFind (executeJob st env job).state.store job.id
      = some (applyFailure f msg
          (env.catchNow + backoffDelay (f.failureCount + 1)))
    ∧ lookupSched (executeJob st env job).state job.id
      = some ⟨f.id, env.catchNow + backoffDelay (f.failureCount + 1),
          max 0 (((env.catchNow + backoffDelay (f.failureCount + 1) : Nat) : Int)
            - (env.schedNow2 : Int))⟩
    ∧ (applyFailure f msg
        (env.catchNow + backoffDelay (f.failureCount + 1))).status = f.status
    ∧ (applyFailure f msg
        (env.catchNow + backoffDelay (f.failureCount + 1))).failureCount
      = f.failureCount + 1
    ∧ backoffDelay (3 + 1) = 16 * 60000
    ∧ backoffDelay (10 + 1) = 60 * 60000 := by
  have hfid : f.id = job.id := by
    have := List.find?_some hf
    simpa using this
  refine ⟨?_, ?_, rfl, rfl, by decide, by decide⟩
  · unfold executeJob
    rw [hg]
    simp only [Bool.false_eq_true, if_false]
    unfold executeBody execTry
    rw [hft]
    simp only [guardSet_store]
    rw [hf, hexec]
    dsimp only
    rw [if_neg (not_not_intro hactive)]
    dsimp only
    unfold execCatch
    rw [hcf]
    simp only [guardSet_store]
    rw [hf, hcs1, hcs2]
    dsimp only
    rw [scheduleJob_some _ _ _ (env.catchNow + backoffDelay (f.failureCount + 1))]
    · dsimp only
      simp only [guardDelete_store, setSched]
      exact storeFind_storeSave _ _ job.id hfid
    · exact hactive
    · rfl
  · unfold executeJob
    rw [hg]
    simp only [Bool.false_eq_true, if_false]
    unfold executeBody execTry
    rw [hft]
    simp only [guardSet_store]
    rw [hf, hexec]
    dsimp only
    rw [if_neg (not_not_intro hactive)]
    dsimp only
    unfold execCatch
    rw [hcf]
    simp only [guardSet_store]
    rw [hf, hcs1, hcs2]
    dsimp only
    rw [scheduleJob_some _ _ _ (env.catchNow + backoffDelay (f.failureCount + 1))]
    · unfold lookupSched
      dsimp only
      simp only [guardDelete_scheduledJobs, setSched]
      exact find_filter_append st.scheduledJobs
        ⟨f.id, env.catchNow + backoffDelay (f.failureCount + 1),
          max 0 (((env.catchNow + backoffDelay (f.failureCount + 1) : Nat) : Int)
            - (env.schedNow2 : Int))⟩ job.id hfid
    · exact hactive
    · rfl

/-- Witness for C2 at a concrete store: failing `jobC` (stored
failureCount 3) persists the row with the 16-minute backoff due time. -/
theorem spec_C2_witness :
    storeFind (executeJob stWithJobC envFail jobC).state.store jobC.id
      = some (applyFailure jobC "boom"
          (envFail.catchNow + backoffDelay (jobC.failureCount + 1))) :=
  (spec_C2 stWithJobC envFail jobC jobC "boom" (by decide) rfl (by decide)
    rfl rfl rfl rfl rfl).1

/-- Witness for C10 at a concrete store: a successful run of `jobA`
persists the updated row and leaves `failureCount` untouched. -/
theorem spec_C10_witness :
    storeFind (executeJob stWithJobA envOk jobA).state.store jobA.id
      = some (applySuccess jobA envOk.tLastRun 3600002)
    ∧ (applySuccess jobA envOk.tLastRun 3600002).failureCount
      = jobA.failureCount :=
  ⟨(spec_C10 stWithJobA envOk jobA jobA 3600002 (by decide) rfl (by decide)
      rfl rfl (by decide) rfl).1,
   (spec_C10 stWithJobA envOk jobA jobA 3600002 (by decide) rfl (by decide)
      rfl rfl (by decide) rfl).2.1⟩

/-! ### Reconciler lemmas -/

/-- The due-time computation loop preserves the identity sequence. -/
theorem computeDueTimes_ids (now : Nat) :
    ∀ (l l' : List Job), computeDueTimes now l = .ok l' →
      l'.map (fun j => j.id) = l.map (fun j => j.id) := by
  intro l
  induction l with
  | nil =>
    intro l' h
    unfold computeDueTimes at h
    injection h with h
    rw [← h]
  | cons j rest ih =>
    intro l' h
    unfold computeDueTimes at h
    cases hc : calculateNextRun j.schedule now with
    | error e =>
      rw [hc] at h
      cases h
    | ok t =>
      rw [hc] at h
      cases hr : computeDueTimes now rest with
      | error e =>
        rw [hr] at h
        cases h
      | ok js =>
        rw [hr] at h
        injection h with h
        rw [← h]
        simp [ih js hr]

/-- Every row produced by the due-time computation loop is an input row
with only `nextRunAt` filled in by the calculator. -/
theorem computeDueTimes_mem (now : Nat) :
    ∀ (l l' : List Job), computeDueTimes now l = .ok l' →
      ∀ u ∈ l', ∃ j t, j ∈ l ∧ calculateNextRun j.schedule now = .ok t ∧
        u = { j with nextRunAt := some t } := by
  intro l
  induction l with
  | nil =>
    intro l' h
    unfold computeDueTimes at h
    injection h with h
    rw [← h]
    intro u hu
    cases hu
  | cons j rest ih =>
    intro l' h
    unfold computeDueTimes at h
    cases hc : calculateNextRun j.schedule now with
    | error e =>
      rw [hc] at h
      cases h
    | ok t =>
      rw [hc] at h
      cases hr : computeDueTimes now rest with
      | error e =>
        rw [hr] at h
        cases h
      | ok js =>
        rw [hr] at h
        injection h with h
        rw [← h]
        intro u hu
        rcases List.mem_cons.mp hu with rfl | hur
        · exact ⟨j, t, by simp, hc, rfl⟩
        · obtain ⟨j2, t2, hj2, hc2, hu2⟩ := ih js hr u hur
          exact ⟨j2, t2, by simp [hj2], hc2, hu2⟩

/-- Re-installing the entry of one identity does not disturb the lookup
of any other identity. -/
theorem find_filter_append_other (l : List ScheduledEntry)
    (e : ScheduledEntry) (i : String) (hne : e.id ≠ i) :
    (l.filter (fun x => x.id ≠ e.id) ++ [e]).find? (fun x => x.id = i)
      = l.find? (fun x => x.id = i) := by
  induction l with
  | nil => simp [List.find?, hne]
  | cons a rest ih =>
    by_cases ha : a.id = e.id
    · rw [List.filter_cons, if_neg (by simp [ha])]
      rw [ih]
      rw [List.find?_cons_of_neg _ ?hneg]
      case hneg =>
        simp only [decide_eq_true_eq]
        intro hcon
        exact hne (by rw [← ha, hcon])
    · rw [List.filter_cons, if_pos (by simpa using ha)]
      rw [List.cons_append]
      by_cases hai : a.id = i
      · rw [List.find?_cons_of_pos _ (by simpa using hai),
          List.find?_cons_of_pos _ (by simpa using hai)]
      · rw [List.find?_cons_of_neg _ (by simpa using hai),
          List.find?_cons_of_neg _ (by simpa using hai)]
        exact ih

theorem scheduleAll_cons (st : SchedState) (now : Nat) (j : Job)
    (rest : List Job) :
    scheduleAll st now (j :: rest) = (match scheduleJob st now j with
      | .error e => .error e
      | .ok st1 => scheduleAll st1 now rest) := rfl

/-- Scheduling a list of Active jobs with present due times and distinct
identities succeeds, touches neither the store nor the guard, leaves
other identities' entries alone, and leaves every scheduled identity
with an index entry. -/
theorem scheduleAll_active (now : Nat) :
    ∀ (js : List Job) (st : SchedState),
      (∀ j ∈ js, j.status = JobStatus.active ∧ j.nextRunAt.isSome = true) →
      (js.map (fun j => j.id)).Nodup →
      ∃ st', scheduleAll st now js = .ok st'
        ∧ st'.store = st.store
        ∧ (∀ i : String, (∀ j ∈ js, j.id ≠ i) →
            st'.scheduledJobs.find? (fun e => e.id = i)
              = st.scheduledJobs.find? (fun e => e.id = i))
        ∧ ∀ j ∈ js, (st'.scheduledJobs.find? (fun e => e.id = j.id)).isSome
            = true := by
  intro js
  induction js with
  | nil =>
    intro st _ _
    exact ⟨st, rfl, rfl, fun i _ => rfl, by simp⟩
  | cons j rest ih =>
    intro st hall hnd
    obtain ⟨hact, hsome⟩ := hall j (by simp)
    obtain ⟨t, ht⟩ := Option.isSome_iff_exists.mp hsome
    have hsch := scheduleJob_some st now j t hact ht
    have hndr : (rest.map (fun j => j.id)).Nodup := by
      simp only [List.map_cons, List.nodup_cons] at hnd
      exact hnd.2
    have hjnot : j.id ∉ rest.map (fun j => j.id) := by
      simp only [List.map_cons, List.nodup_cons] at hnd
      exact hnd.1
    obtain ⟨st', hall', hstore', hpres', hmem'⟩ :=
      ih (setSched st (st.scheduledJobs.filter (fun e => e.id ≠ j.id) ++
          [⟨j.id, t, max 0 ((t : Int) - (now : Int))⟩]))
        (fun j2 hj2 => hall j2 (by simp [hj2])) hndr
    refine ⟨st', ?_, ?_, ?_, ?_⟩
    · rw [scheduleAll_cons, hsch]
      exact hall'
    · rw [hstore']
      rfl
    · intro i hi
      rw [hpres' i (fun j2 hj2 => hi j2 (by simp [hj2]))]
      simp only [setSched]
      exact find_filter_append_other st.scheduledJobs
        ⟨j.id, t, max 0 ((t : Int) - (now : Int))⟩ i (hi j (by simp))
    · intro j2 hj2
      rcases List.mem_cons.mp hj2 with rfl | hj2r
      · have hnotin : ∀ jr ∈ rest, jr.id ≠ j2.id := by
          intro jr hjr hcon
          exact hjnot (hcon ▸ List.mem_map_of_mem _ hjr)
        rw [hpres' j2.id hnotin]
        simp only [setSched]
        rw [find_filter_append st.scheduledJobs
          ⟨j2.id, t, max 0 ((t : Int) - (now : Int))⟩ j2.id rfl]
        rfl
      · exact hmem' j2 hj2r

/-- The substituted row keeps the identity of the row it replaces. -/
theorem reconSubst_id (updated : List Job) (j : Job) :
    (reconSubst updated j).id = j.id := by
  unfold reconSubst
  cases hf : updated.find? (fun u => u.id = j.id) with
  | none => rfl
  | some u =>
    have := List.find?_some hf
    simpa using this

/-- Substitution does not change the identity sequence. -/
theorem map_reconSubst_ids (updated l : List Job) :
    (l.map (reconSubst updated)).map (fun j => j.id)
      = l.map (fun j => j.id) := by
  induction l with
  | nil => rfl
  | cons a rest ih => simp [ih, reconSubst_id]

/-- C8 counterexample: with one unparsable-schedule job in the batch,
the whole startup routine aborts — the good active job, although
parsable, gets neither a due time nor an index entry, contradicting the
claim that the bad job is skipped while the rest are still scheduled. -/
theorem spec_C8_cex :
    loadActiveJobs stReconcile 0 = (stReconcile, true)
    ∧ jobGood.status = JobStatus.active
    ∧ calculateNextRun jobGood.schedule 0 = .ok 3600000
    ∧ (loadActiveJobs stReconcile 0).1.scheduledJobs.find?
        (fun e => e.id = jobGood.id) = none
    ∧ storeFind (loadActiveJobs stReconcile 0).1.store jobGood.id
        = some jobGood := by
  decide

/-- C8 as amended: the Reconciler loads the Active rows, computes due
times for those lacking one and batch-persists them before any
scheduling, then schedules every active job — but the error handling is
whole-routine, not per job: if the calculator rejects any schedule in
the update batch, the routine aborts with a logged error (the process
survives, the state is untouched, and no job — not even a parsable one —
is scheduled in that cycle); when every schedule in the batch parses,
the batch is persisted and every active identity ends up with an index
entry. -/
theorem spec_C8 (st : SchedState) (now : Nat) :
    (∀ e : CalcError,
      computeDueTimes now
        ((st.store.filter (fun j => j.status = JobStatus.active)).filter
          (fun j => j.nextRunAt = none)) = .error e →
      loadActiveJobs st now = (st, true))
    ∧ (∀ updated : List Job,
      (st.store.map (fun j => j.id)).Nodup →
      computeDueTimes now
        ((st.store.filter (fun j => j.status = JobStatus.active)).filter
          (fun j => j.nextRunAt = none)) = .ok updated →
      ∃ st', loadActiveJobs st now = (st', false)
        ∧ st'.store = updated.foldl storeSave st.store
        ∧ ∀ j ∈ st.store, j.status = JobStatus.active →
            (st'.scheduledJobs.find? (fun e => e.id = j.id)).isSome = true) := by
  constructor
  · intro e hcomp
    unfold loadActiveJobs
    dsimp only
    rw [hcomp]
  · intro updated hnd hcomp
    have hK1 : ∀ j2 ∈ (st.store.filter
        (fun j => j.status = JobStatus.active)).map (reconSubst updated),
        j2.status = JobStatus.active ∧ j2.nextRunAt.isSome = true := by
      intro j2 hj2
      obtain ⟨ja, hja, rfl⟩ := List.mem_map.mp hj2
      unfold reconSubst
      cases hfu : updated.find? (fun u => u.id = ja.id) with
      | some u =>
        obtain ⟨j0, t0, hj0, hc0, hu0⟩ :=
          computeDueTimes_mem now _ updated hcomp u
            (List.mem_of_find?_eq_some hfu)
        subst hu0
        constructor
        · have h1 := (List.mem_filter.mp hj0).1
          have h2 := (List.mem_filter.mp h1).2
          simpa using h2
        · rfl
      | none =>
        constructor
        · simpa using (List.mem_filter.mp hja).2
        · by_contra hno
          have hnone : ja.nextRunAt = none := by
            cases hy : ja.nextRunAt with
            | none => rfl
            | some y => exact absurd (by rw [hy]; rfl) hno
          have hmemJ : ja ∈ (st.store.filter
              (fun j => j.status = JobStatus.active)).filter
                (fun j => j.nextRunAt = none) :=
            List.mem_filter.mpr ⟨hja, by simp [hnone]⟩
          have hin : ja.id ∈ updated.map (fun j => j.id) := by
            rw [computeDueTimes_ids now _ updated hcomp]
            exact List.mem_map_of_mem _ hmemJ
          obtain ⟨u, hu, huid⟩ := List.mem_map.mp hin
          have hne := List.find?_eq_none.mp hfu u hu
          simp [huid] at hne
    have hK2 : (((st.store.filter
        (fun j => j.status = JobStatus.active)).map
          (reconSubst updated)).map (fun j => j.id)).Nodup := by
      rw [map_reconSubst_ids]
      exact hnd.sublist (List.Sublist.map _ (List.filter_sublist _))
    obtain ⟨st', hall', hstore', hpres', hmem'⟩ :=
      scheduleAll_active now
        ((st.store.filter (fun j => j.status = JobStatus.active)).map
          (reconSubst updated))
        { st with store := updated.foldl storeSave st.store } hK1 hK2
    refine ⟨st', ?_, ?_, ?_⟩
    · unfold loadActiveJobs
      dsimp only
      rw [hcomp]
      dsimp only
      rw [hall']
    · rw [hstore']
    · intro j hj hjact
      have hja : j ∈ st.store.filter
          (fun j => j.status = JobStatus.active) :=
        List.mem_filter.mpr ⟨hj, by simp [hjact]⟩
      have hmm := hmem' (reconSubst updated j) (List.mem_map_of_mem _ hja)
      rw [reconSubst_id] at hmm
      exact hmm

/-- Witness for C8 (amended): the abort branch at the concrete
two-job startup state. -/
theorem spec_C8_witness :
    loadActiveJobs stReconcile 0 = (stReconcile, true) :=
  (spec_C8 stReconcile 0).1 CalcError.intervalMustBePositive (by decide)
